import Mathlib

/-!
Verification of the PolyGo market-data gateway core against its design
specification.  The Go source is embedded shallowly: each Go function that a
claim depends on is translated into an executable Lean definition over explicit
state, and the claims are settled as theorems about those definitions.
-/

set_option maxHeartbeats 1000000

namespace PolyGo

/-!
### Response cache (internal/cache/cache.go)

The wrapper delegates to the ristretto store, which is an external dependency
and not part of this repository; the store itself is therefore modelled from
the specification.
-/

/-- Modelled from the spec: the underlying cost-bounded TTL store (ristretto)
is not part of this repository.  Per the data model, a cache entry holds
payload bytes, a cost and an absolute expiry, and entries past their expiry
are treated as absent even if still physically present. -/
structure StoreEntry where
  data : List Nat
  cost : Nat
  expiry : Nat
deriving DecidableEq

/-- Modelled from the spec: the state of the underlying store is a finite map
from keys to entries, here an association list. -/
abbrev Store := List (String × StoreEntry)

/-- Modelled from the spec: a lookup in the underlying store; an entry past
its expiry is treated as absent. -/
def storeGet (st : Store) (key : String) (now : Nat) : Option (List Nat) :=
  match st.find? (fun e => e.1 == key) with
  | none => none
  | some e => if now < e.2.expiry then some e.2.data else none

/-- Modelled from the spec: an insertion into the underlying store, overwriting
any previous entry for the key atomically and recording an absolute expiry. -/
def storeSetWithTTL (st : Store) (key : String) (v : List Nat) (cost ttl now : Nat) :
    Store :=
  (key, ⟨v, cost, now + ttl⟩) :: st.filter (fun e => !(e.1 == key))

/-- Cache.Get from cache.go: look the key up in the store and report found. -/
def cacheGet (st : Store) (key : String) (now : Nat) : List Nat × Bool :=
  match storeGet st key now with
  | none => ([], false)
  | some data => (data, true)

/-- Cache.Set from cache.go: copy the input bytes and insert them with a cost
equal to the byte length. -/
def cacheSet (st : Store) (key : String) (value : List Nat) (ttl now : Nat) :
    Store × Bool :=
  let data := value
  (storeSetWithTTL st key data data.length ttl now, true)

/-!
### Rate limiter (internal/api/middleware/ratelimit.go area of the source)
-/

/-- State for one key of the rate limiter: request count and window reset
time, mirroring rateLimitEntry. -/
structure RLEntry where
  count : Nat
  resetAt : Nat
deriving DecidableEq

/-- Configuration of the limiter, mirroring RateLimitConfig. -/
structure RLConfig where
  max : Nat
  window : Nat
deriving DecidableEq

/-- The entries table of the limiter, keyed by client identity. -/
abbrev RLState := List (String × RLEntry)

/-- Lookup of a key in the entries table. -/
def rlLookup (st : RLState) (key : String) : Option RLEntry :=
  (st.find? (fun e => e.1 == key)).map (fun e => e.2)

/-- Update of the value stored under a key of an association list, leaving
every other entry untouched; this is the shape shared by all map mutations of
the source. -/
def mapUpdate {A B : Type} [BEq A] (l : List (A × B)) (k : A) (u : B → B) :
    List (A × B) :=
  l.map (fun p => if p.1 == k then (k, u p.2) else p)

/-- In-place update of the entry for a key, mirroring mutation of the shared
entry pointer in the Go code. -/
def rlSet (st : RLState) (key : String) (e : RLEntry) : RLState :=
  mapUpdate st key (fun _ => e)

/-- The check function of the rate limiter, translated from the source: a
fresh key is initialized with count 1 and resetAt now plus window; an expired
window (now strictly after resetAt) resets to count 1; a count at or above max
is rejected with remaining 0; otherwise the count is incremented.  Returns
(allowed, remaining, resetAt) and the updated table. -/
def check (st : RLState) (cfg : RLConfig) (key : String) (now : Nat) :
    (Bool × Int × Nat) × RLState :=
  match rlLookup st key with
  | none =>
    let e : RLEntry := ⟨1, now + cfg.window⟩
    ((true, (cfg.max : Int) - 1, e.resetAt), (key, e) :: st)
  | some e =>
    if e.resetAt < now then
      let e2 : RLEntry := ⟨1, now + cfg.window⟩
      ((true, (cfg.max : Int) - 1, e2.resetAt), rlSet st key e2)
    else if cfg.max ≤ e.count then
      ((false, 0, e.resetAt), st)
    else
      let e2 : RLEntry := ⟨e.count + 1, e.resetAt⟩
      ((true, (cfg.max : Int) - (e2.count : Int), e2.resetAt), rlSet st key e2)

/-- Run a sequence of check calls for one key at the given times, collecting
the results and threading the entries table. -/
def runChecks (st : RLState) (cfg : RLConfig) (key : String) :
    List Nat → List (Bool × Int × Nat) × RLState
  | [] => ([], st)
  | t :: ts =>
    let r := check st cfg key t
    let rest := runChecks r.2 cfg key ts
    (r.1 :: rest.1, rest.2)

/-!
### Rate-limit middleware response (RateLimit handler in the middleware file)
-/

/-- Go conversion string(rune(n)): the UTF-8 string of the single code point n,
or the replacement character U+FFFD when n is not a valid code point. -/
def goRuneString (n : Nat) : String :=
  if n.isValidChar then String.mk [Char.ofNat n] else String.mk [Char.ofNat 0xFFFD]

/-- Two-digit zero padding used by the RFC3339 rendering. -/
def pad2 (n : Nat) : String :=
  if n < 10 then "0" ++ toString n else toString n

/-- Civil date (year, month, day) from a count of days since 1970-01-01,
the standard era-based conversion used to render timestamps. -/
def civilFromDays (z0 : Nat) : Nat × Nat × Nat :=
  let z := z0 + 719468
  let era := z / 146097
  let doe := z % 146097
  let yoe := (doe - doe / 1460 + doe / 36524 - doe / 146096) / 365
  let y := yoe + era * 400
  let doy := doe - (365 * yoe + yoe / 4 - yoe / 100)
  let mp := (5 * doy + 2) / 153
  let d := doy - (153 * mp + 2) / 5 + 1
  let m := if mp < 10 then mp + 3 else mp - 9
  (if m ≤ 2 then y + 1 else y, m, d)

/-- Rendering of an absolute time (seconds since the epoch, UTC) in RFC3339
layout, as produced by formatting the reset time with the RFC3339 layout. -/
def rfc3339Render (t : Nat) : String :=
  let days := t / 86400
  let secs := t % 86400
  let c := civilFromDays days
  toString c.1 ++ "-" ++ pad2 c.2.1 ++ "-" ++ pad2 c.2.2 ++ "T" ++
    pad2 (secs / 3600) ++ ":" ++ pad2 ((secs % 3600) / 60) ++ ":" ++
    pad2 (secs % 60) ++ "Z"

/-- Rendering of the Retry-After duration value; the claims only constrain the
presence of this header, not its exact duration format. -/
def goDurationRender (d : Nat) : String := toString d

/-- Observable outcome of one pass through the rate-limit middleware: response
headers set, status code, and whether the next handler was invoked. -/
structure MWResult where
  headers : List (String × String)
  status : Nat
  next : Bool
deriving DecidableEq

/-- The rate-limit middleware handler, translated from the source: a skipped
request goes straight to the next handler; otherwise check runs, the three
X-RateLimit headers are set (limit and remaining through the Go conversion
string(rune(n)), reset through RFC3339), and a rejected request additionally
gets a Retry-After header and the 429 response. -/
def rateLimitHandler (cfg : RLConfig) (st : RLState) (skip : Bool) (key : String)
    (now : Nat) : MWResult × RLState :=
  if skip then (⟨[], 0, true⟩, st)
  else
    let r := check st cfg key now
    let allowed := r.1.1
    let remaining := r.1.2.1
    let resetAt := r.1.2.2
    let hs := [("X-RateLimit-Limit", goRuneString cfg.max),
               ("X-RateLimit-Remaining", goRuneString remaining.toNat),
               ("X-RateLimit-Reset", rfc3339Render resetAt)]
    if allowed then (⟨hs, 0, true⟩, r.2)
    else (⟨hs ++ [("Retry-After", goDurationRender (resetAt - now))], 429, false⟩, r.2)

/-!
### Upstream HTTP client (internal/polymarket/client.go, doRequest)
-/

/-- Outcome of a single attempt as seen by doRequest: either a transport error
from DoTimeout or an HTTP response with a status code and body. -/
inductive AttemptResult where
  | transportErr : AttemptResult
  | http : Nat → List Nat → AttemptResult
deriving DecidableEq

/-- Final outcome of doRequest: a successful body, a non-retryable client
error carrying the status and response body, or retries exhausted. -/
inductive ReqOutcome where
  | success : List Nat → ReqOutcome
  | clientError : Nat → List Nat → ReqOutcome
  | exhausted : ReqOutcome
deriving DecidableEq

/-- Trace of one doRequest run: its outcome, the sleeps inserted between
attempts, and how many attempts were made. -/
structure ReqTrace where
  outcome : ReqOutcome
  waits : List Nat
  attemptsMade : Nat
deriving DecidableEq

/-- Whether an attempt outcome is one the retry loop continues past: a
transport error or a 5xx response. -/
def isRetryable : AttemptResult → Bool
  | .transportErr => true
  | .http s _ => 500 ≤ s

/-- The retry loop of doRequest, translated from the source.  The loop index i
runs from 0; before attempt i with i positive the code sleeps baseWait times i;
a 2xx response returns the body, a 5xx response or transport error records the
error and continues, and any other status returns at once as a client error
carrying the body.  The env argument supplies the outcome of each attempt and
the fuel argument is the remaining number of loop iterations. -/
def doRequestGo (baseWait : Nat) (env : Nat → AttemptResult) (i : Nat) :
    Nat → ReqTrace
  | 0 => ⟨.exhausted, [], 0⟩
  | fuel + 1 =>
    let w : List Nat := if i = 0 then [] else [baseWait * i]
    match env i with
    | .transportErr =>
      let t := doRequestGo baseWait env (i + 1) fuel
      ⟨t.outcome, w ++ t.waits, t.attemptsMade + 1⟩
    | .http s b =>
      if 200 ≤ s ∧ s < 300 then ⟨.success b, w, 1⟩
      else if 500 ≤ s then
        let t := doRequestGo baseWait env (i + 1) fuel
        ⟨t.outcome, w ++ t.waits, t.attemptsMade + 1⟩
      else ⟨.clientError s b, w, 1⟩

/-- doRequest itself: the loop runs for indices 0 through RetryCount. -/
def doRequest (retryCount baseWait : Nat) (env : Nat → AttemptResult) : ReqTrace :=
  doRequestGo baseWait env 0 (retryCount + 1)

/-!
### Upstream feed manager (the WSManager part of the source)
-/

/-- The connection-relevant state of the manager. -/
structure MgrState where
  connected : Bool
deriving DecidableEq

/-- Events emitted by the manager code: the error, disconnect and connect
callbacks, sleeps of the backoff loop, and connect attempts. -/
inductive MgrEvent where
  | errorCb : MgrEvent
  | disconnectCb : MgrEvent
  | connectCb : MgrEvent
  | wait : Nat → MgrEvent
  | attempt : Bool → MgrEvent
deriving DecidableEq

/-- The retry loop inside reconnect, translated from the source: wait for the
current backoff, call Connect, return on success (Connect marks the manager
connected and fires the connect callback), otherwise double the backoff,
capping it at 30 seconds, and continue.  The outcomes list supplies the result
of each Connect call; an exhausted list models the cancellation signal firing
before the next attempt. -/
def reconnectLoop (s : MgrState) : List Bool → Nat → MgrState × List MgrEvent
  | [], _ => (s, [])
  | ok :: rest, backoff =>
    if ok then ({ s with connected := true }, [.wait backoff, .attempt true, .connectCb])
    else
      let next := if backoff * 2 > 30 then 30 else backoff * 2
      let r := reconnectLoop s rest next
      (r.1, .wait backoff :: .attempt false :: r.2)

/-- The reconnect function, translated from the source: mark the manager
disconnected, invoke the disconnect callback, then run the backoff loop
starting from a one-second wait. -/
def reconnect (s : MgrState) (outcomes : List Bool) : MgrState × List MgrEvent :=
  let s1 : MgrState := { s with connected := false }
  let r := reconnectLoop s1 outcomes 1
  (r.1, .disconnectCb :: r.2)

/-- The read-error branch of handleClobMessages: invoke the error callback,
then call reconnect, then end the loop. -/
def handleClobReadError (s : MgrState) (outcomes : List Bool) :
    MgrState × List MgrEvent :=
  let r := reconnect s outcomes
  (r.1, .errorCb :: r.2)

/-- The read-error branch of handleLiveMessages, translated from the source:
invoke the error callback and end the loop.  It does not call reconnect. -/
def handleLiveReadError (s : MgrState) : MgrState × List MgrEvent :=
  (s, [.errorCb])

/-!
### Connect (the Connect method of the manager)
-/

/-- The connection fields of the manager relevant to Connect. -/
structure ConnState where
  clobConn : Option Nat
  liveConn : Option Nat
  connected : Bool
deriving DecidableEq

/-- Events of one Connect attempt: dial results, the close of the order-book
feed on a live-feed dial failure, the start of the read and ping loops, and
the connect callback. -/
inductive ConnEvent where
  | dialClob : Bool → ConnEvent
  | dialLive : Bool → ConnEvent
  | closeClob : ConnEvent
  | readLoopsStarted : ConnEvent
  | pingStarted : ConnEvent
  | connectCb : ConnEvent
deriving DecidableEq

/-- Connect, translated from the source: dial the order-book feed, then the
live-data feed; a failure of the first dial returns the error at once, a
failure of the second closes the already-opened order-book connection and
returns the error; only full success marks the manager connected, starts the
two read loops and the ping loop, and fires the connect callback.  The final
Bool reports whether an error was returned. -/
def connectGo (s : ConnState) (clobOk liveOk : Bool) :
    ConnState × List ConnEvent × Bool :=
  if clobOk = false then (s, [.dialClob false], true)
  else
    let s1 : ConnState := { s with clobConn := some 0 }
    if liveOk = false then
      (s1, [.dialClob true, .dialLive false, .closeClob], true)
    else
      let s2 : ConnState := { s1 with liveConn := some 1, connected := true }
      (s2, [.dialClob true, .dialLive true, .readLoopsStarted, .pingStarted,
            .connectCb], false)

/-!
### Inbound frames and their parsing

An inbound frame is opaque JSON; only the markets array field and the market
scalar field matter for routing.  A frame is modelled as its list of fields.
Parsing into a Go struct extracts exactly the fields that struct declares:
the WSMessage struct of the manager declares a Markets array but no scalar
market field, while the anonymous struct of handleUpstreamMessage declares
both Markets and Market.
-/

/-- One top-level field of an inbound JSON frame. -/
inductive JField where
  | marketsF : List String → JField
  | marketF : String → JField
  | otherF : String → Nat → JField
deriving DecidableEq

/-- An inbound frame: the raw bytes are identified with the field list, which
is passed through unexamined apart from routing. -/
structure Frame where
  fields : List JField
deriving DecidableEq

/-- Extraction of the markets array during unmarshalling (empty when the field
is absent, the zero value of a slice). -/
def frameMarkets (f : Frame) : List String :=
  (f.fields.findSome? (fun fl =>
    match fl with
    | .marketsF ms => some ms
    | _ => none)).getD []

/-- Extraction of the scalar market field during unmarshalling (empty string
when absent, the zero value of a string). -/
def frameMarket (f : Frame) : String :=
  (f.fields.findSome? (fun fl =>
    match fl with
    | .marketF m => some m
    | _ => none)).getD ""

/-- Result of unmarshalling a frame into the WSMessage struct of the manager:
that struct declares Markets but no scalar market field, so only the markets
array is extracted. -/
def parseWSMessage (f : Frame) : List String :=
  frameMarkets f

/-!
### Broadcast queue of the downstream handler (handleUpstreamMessage)
-/

/-- A broadcast record: market identifier plus the raw frame. -/
structure WSBroadcast where
  marketID : String
  data : Frame
deriving DecidableEq

/-- Result of one Go channel send on the buffered broadcast channel of
capacity 1000: the send completes by appending when the buffer has room, and
otherwise the plain send statement blocks the producer. -/
inductive SendResult where
  | sent : List WSBroadcast → SendResult
  | blocked : SendResult
deriving DecidableEq

/-- One-step semantics of the plain channel send in handleUpstreamMessage. -/
def chanSend (q : List WSBroadcast) (r : WSBroadcast) : SendResult :=
  if q.length < 1000 then .sent (q ++ [r]) else .blocked

/-- Outcome of the whole enqueue loop: either every record was enqueued, or
the producer is blocked on the send for some market with the queue in the
given state. -/
inductive EnqueueOutcome where
  | completed : List WSBroadcast → EnqueueOutcome
  | blockedAt : List WSBroadcast → String → EnqueueOutcome
deriving DecidableEq

/-- The per-market send loop of handleUpstreamMessage. -/
def enqueueAll (q : List WSBroadcast) (f : Frame) :
    List String → EnqueueOutcome
  | [] => .completed q
  | m :: ms =>
    match chanSend q ⟨m, f⟩ with
    | .sent q2 => enqueueAll q2 f ms
    | .blocked => .blockedAt q m

/-- The list of markets handleUpstreamMessage broadcasts for: the parsed
markets array, with the scalar market appended when it is nonempty. -/
def handlerMarkets (f : Frame) : List String :=
  if frameMarket f ≠ "" then frameMarkets f ++ [frameMarket f]
  else frameMarkets f

/-- handleUpstreamMessage, translated from the source: parse the frame for its
markets array and scalar market, then send one broadcast record per market
onto the broadcast channel with a plain (blocking) send. -/
def handleUpstreamMessage (q : List WSBroadcast) (f : Frame) : EnqueueOutcome :=
  enqueueAll q f (handlerMarkets f)

/-!
### Direct per-market routing (processMessage of the manager)
-/

/-- The per-market delivery channels (bounded, capacity 100) keyed by channel
identifier. -/
abbrev ChanBufs := List (Nat × List Frame)

/-- Buffer of a channel, as an option to distinguish an unregistered channel. -/
def lookupBuf (bufs : ChanBufs) (ch : Nat) : Option (List Frame) :=
  (bufs.find? (fun p => p.1 == ch)).map (fun p => p.2)

/-- Non-blocking send of processMessage: the select with a default drops the
frame when the channel is full (100 buffered frames) instead of blocking. -/
def sendNB (bufs : ChanBufs) (ch : Nat) (f : Frame) : ChanBufs :=
  mapUpdate bufs ch (fun buf => if buf.length < 100 then buf ++ [f] else buf)

/-- The subscription table of the manager: market identifier to the channels
registered for it. -/
structure MgrSubs where
  marketSubs : List (String × List Nat)
deriving DecidableEq

/-- Channels registered for a market (empty when the market has no entry). -/
def subsOf (w : MgrSubs) (m : String) : List Nat :=
  ((w.marketSubs.find? (fun p => p.1 == m)).map (fun p => p.2)).getD []

/-- processMessage, translated from the source: unmarshal the frame into
WSMessage and, when the parsed markets array is nonempty, attempt one
non-blocking send of the raw frame to every channel of every listed market.
The scalar market field does not appear in WSMessage and plays no part here. -/
def processMessage (w : MgrSubs) (bufs : ChanBufs) (f : Frame) : ChanBufs :=
  let markets := parseWSMessage f
  if markets.length > 0 then
    markets.foldl (fun b m => (subsOf w m).foldl (fun b2 ch => sendNB b2 ch f) b) bufs
  else bufs

/-- The full sequence of channels processMessage sends to, in order. -/
def sendTargets (w : MgrSubs) (f : Frame) : List Nat :=
  ((parseWSMessage f).map (fun m => subsOf w m)).flatten

/-!
### Downstream session handlers (the WebSocketHandler part of the source)
-/

/-- Upstream control frames emitted by the manager on subscribe and
unsubscribe. -/
inductive UpFrame where
  | subscribeF : String → UpFrame
  | unsubscribeF : String → UpFrame
deriving DecidableEq

/-- Joint state of the manager subscription table, the control frames sent
upstream, the fresh-channel counter, and the registered-clients table mapping
a connection to its set of subscribed market identifiers. -/
structure GwState where
  marketSubs : List (String × List Nat)
  upstream : List UpFrame
  nextCh : Nat
  clients : List (Nat × List String)
deriving DecidableEq

/-- Lookup of the channel list of a market in the subscription table. -/
def subsLookup (g : GwState) (m : String) : Option (List Nat) :=
  (g.marketSubs.find? (fun p => p.1 == m)).map (fun p => p.2)

/-- Replacement of the entry of a key in the subscription table. -/
def setSubs (l : List (String × List Nat)) (k : String) (v : List Nat) :
    List (String × List Nat) :=
  mapUpdate l k (fun _ => v)

/-- Deletion of the entry of a key from the subscription table. -/
def delSubs (l : List (String × List Nat)) (k : String) :
    List (String × List Nat) :=
  l.filter (fun p => !(p.1 == k))

/-- SubscribeMarket, translated from the source: register a fresh bounded
channel under the market identifier, send a subscribe control frame upstream,
and return the channel to the caller. -/
def subscribeMarket (g : GwState) (marketID : String) : GwState × Nat :=
  let ch := g.nextCh
  let g2 : GwState :=
    match subsLookup g marketID with
    | none => { g with marketSubs := g.marketSubs ++ [(marketID, [ch])] }
    | some subs => { g with marketSubs := setSubs g.marketSubs marketID (subs ++ [ch]) }
  ({ g2 with nextCh := ch + 1, upstream := g2.upstream ++ [.subscribeF marketID] }, ch)

/-- UnsubscribeMarket, translated from the source: remove the first occurrence
of the channel from the entry of the market; when the entry becomes empty,
delete it and send one unsubscribe control frame upstream. -/
def unsubscribeMarket (g : GwState) (marketID : String) (ch : Nat) : GwState :=
  match subsLookup g marketID with
  | none => g
  | some subs =>
    let subs2 := subs.erase ch
    if subs2.length = 0 then
      { g with marketSubs := delSubs g.marketSubs marketID,
               upstream := g.upstream ++ [.unsubscribeF marketID] }
    else { g with marketSubs := setSubs g.marketSubs marketID subs2 }

/-- Insertion into the market set of a session (set semantics). -/
def setInsert (s : List String) (m : String) : List String :=
  if s.contains m then s else s ++ [m]

/-- Adding a market to the set of one registered client. -/
def clientAddMarket (cl : List (Nat × List String)) (conn : Nat) (m : String) :
    List (Nat × List String) :=
  mapUpdate cl conn (fun s => setInsert s m)

/-- Removing a market from the set of one registered client. -/
def clientDelMarket (cl : List (Nat × List String)) (conn : Nat) (m : String) :
    List (Nat × List String) :=
  mapUpdate cl conn (fun s => s.filter (fun x => !(x == m)))

/-- The market set of a registered client. -/
def clientMarkets (g : GwState) (conn : Nat) : Option (List String) :=
  (g.clients.find? (fun p => p.1 == conn)).map (fun p => p.2)

/-- A control message after parsing into the client-message struct. -/
inductive ClientMsg where
  | subscribeC : List String → ClientMsg
  | unsubscribeC : List String → ClientMsg
  | pingC : ClientMsg
  | otherC : ClientMsg
deriving DecidableEq

/-- Replies written back to the client connection. -/
inductive Reply where
  | pong : Nat → Reply
deriving DecidableEq

/-- Session start of HandleMarketWS: register the client with exactly the path
market in its set, then subscribe upstream for it, keeping the returned
channel for the deferred cleanup. -/
def marketWSConnect (g : GwState) (conn : Nat) (marketID : String) :
    GwState × Nat :=
  let g1 : GwState := { g with clients := g.clients ++ [(conn, [marketID])] }
  subscribeMarket g1 marketID

/-- One fold step of the subscribe branch of HandleMarketWS: add the market to
the set of the session, then call SubscribeMarket, discarding the returned
channel exactly as the source does. -/
def marketWSSubStep (conn : Nat) (g : GwState) (m : String) : GwState :=
  let g1 : GwState := { g with clients := clientAddMarket g.clients conn m }
  (subscribeMarket g1 m).1

/-- The control-message loop body of HandleMarketWS, translated from the
source: subscribe adds each listed market to the set of the session and
subscribes upstream (discarding the channels), unsubscribe removes each from
the set only, ping replies pong with the current timestamp, anything else is
ignored. -/
def marketWSHandleMsg (g : GwState) (conn : Nat) (now : Nat) (msg : ClientMsg) :
    GwState × List Reply :=
  match msg with
  | .subscribeC ms => (ms.foldl (marketWSSubStep conn) g, [])
  | .unsubscribeC ms =>
    ({ g with clients := ms.foldl (fun cl m => clientDelMarket cl conn m) g.clients }, [])
  | .pingC => (g, [.pong now])
  | .otherC => (g, [])

/-- The deferred cleanup of HandleMarketWS: unsubscribe the channel created at
session start for the path market, then delete the client from the
registered-clients table and close the connection. -/
def marketWSTeardown (g : GwState) (conn : Nat) (marketID : String) (ch : Nat) :
    GwState :=
  let g1 := unsubscribeMarket g marketID ch
  { g1 with clients := g1.clients.filter (fun p => !(p.1 == conn)) }

/-- Session start of HandleAllMarketsWS: register the client with the wildcard
key in its set; no upstream subscription is made. -/
def allMarketsWSConnect (g : GwState) (conn : Nat) : GwState :=
  { g with clients := g.clients ++ [(conn, ["*"])] }

/-- The control-message loop body of HandleAllMarketsWS, translated from the
source: the message is unmarshalled into a struct with only a type field, and
the only type acted on is ping, which replies pong; subscribe and unsubscribe
messages change nothing and produce no reply. -/
def allMarketsWSHandleMsg (g : GwState) (_conn : Nat) (now : Nat)
    (msg : ClientMsg) : GwState × List Reply :=
  match msg with
  | .pingC => (g, [.pong now])
  | _ => (g, [])

/-!
## Theorems
-/

/-- C7: setting a key and immediately getting it returns the same bytes with
found true; any get strictly before the expiry returns the same unchanged
bytes; once the ttl has elapsed, get reports found false. -/
theorem cache_set_then_get (st : Store) (key : String) (v : List Nat)
    (ttl now : Nat) (h : 0 < ttl) :
    cacheGet (cacheSet st key v ttl now).1 key now = (v, true) ∧
    (∀ t, t < now + ttl → cacheGet (cacheSet st key v ttl now).1 key t = (v, true)) ∧
    (∀ t, now + ttl ≤ t → cacheGet (cacheSet st key v ttl now).1 key t = ([], false)) := by
  refine ⟨?_, ?_, ?_⟩
  · simp [cacheGet, cacheSet, storeSetWithTTL, storeGet, List.find?, h]
  · intro t ht
    simp [cacheGet, cacheSet, storeSetWithTTL, storeGet, List.find?, ht]
  · intro t ht
    simp [cacheGet, cacheSet, storeSetWithTTL, storeGet, List.find?,
      show ¬ t < now + ttl from by omega]

/-- Witness for C7 at a concrete input. -/
theorem cache_set_then_get_witness :
    0 < 5 ∧ cacheGet (cacheSet [] "k" [7, 9] 5 0).1 "k" 0 = ([7, 9], true) :=
  ⟨by decide, (cache_set_then_get [] "k" [7, 9] 5 0 (by decide)).1⟩

/-- Helper: the first check for a fresh key initializes count 1 with resetAt
now plus window and is allowed. -/
theorem check_fresh (cfg : RLConfig) (key : String) (t : Nat) :
    check [] cfg key t =
      ((true, (cfg.max : Int) - 1, t + cfg.window), [(key, ⟨1, t + cfg.window⟩)]) := by
  simp [check, rlLookup]

/-- Helper: a check within the window below the limit increments the count. -/
theorem check_increments (cfg : RLConfig) (key : String) (c R t : Nat)
    (hR : ¬ R < t) (hc : c < cfg.max) :
    check [(key, ⟨c, R⟩)] cfg key t =
      ((true, (cfg.max : Int) - ((c + 1 : Nat) : Int), R), [(key, ⟨c + 1, R⟩)]) := by
  simp [check, rlLookup, rlSet, mapUpdate, List.find?, hR, Nat.not_le.mpr hc]

/-- Helper: a check within the window at or above the limit is rejected and
leaves the entry unchanged. -/
theorem check_rejects (cfg : RLConfig) (key : String) (c R t : Nat)
    (hR : ¬ R < t) (hc : cfg.max ≤ c) :
    check [(key, ⟨c, R⟩)] cfg key t = ((false, 0, R), [(key, ⟨c, R⟩)]) := by
  simp [check, rlLookup, List.find?, hR, hc]

/-- Helper: a check strictly after the reset time resets the entry to count 1
with a fresh window and is allowed. -/
theorem check_resets (cfg : RLConfig) (key : String) (c R t : Nat) (hR : R < t) :
    check [(key, ⟨c, R⟩)] cfg key t =
      ((true, (cfg.max : Int) - 1, t + cfg.window), [(key, ⟨1, t + cfg.window⟩)]) := by
  simp [check, rlLookup, rlSet, mapUpdate, List.find?, hR]

/-- Helper: a run of checks within the window, starting from count c with
room for all of them, allows every request and ends with the count increased
by the number of requests. -/
theorem runChecks_within (cfg : RLConfig) (key : String) :
    ∀ (ts : List Nat) (c R : Nat), 1 ≤ c → c + ts.length ≤ cfg.max →
    (∀ t ∈ ts, t ≤ R) →
    ((runChecks [(key, ⟨c, R⟩)] cfg key ts).1.all (fun r => r.1)) = true ∧
    (runChecks [(key, ⟨c, R⟩)] cfg key ts).2 = [(key, ⟨c + ts.length, R⟩)] := by
  intro ts
  induction ts with
  | nil => intro c R hc hle hts; simp [runChecks]
  | cons t ts ih =>
    intro c R hc hle hts
    have ht : t ≤ R := hts t (List.mem_cons_self t ts)
    have hlen : c + (ts.length + 1) ≤ cfg.max := by simpa using hle
    have hstep := check_increments cfg key c R t (by omega) (by omega)
    have hrest := ih (c + 1) R (by omega) (by omega)
      (fun u hu => hts u (List.mem_cons_of_mem t hu))
    constructor
    · simp only [runChecks, hstep, List.all_cons]
      simpa using hrest.1
    · simp only [runChecks, hstep]
      rw [hrest.2]
      have : c + 1 + ts.length = c + (t :: ts).length := by simp; omega
      rw [this]

/-- C6: for a fresh key, the first check initializes count 1 with resetAt now
plus window; exactly max consecutive calls within the window are allowed,
ending with count max; the next in-window call is rejected; the first call
strictly after the reset time resets to count 1, is allowed, and permits max
further requests. -/
theorem rateLimiter_fixed_window (cfg : RLConfig) (key : String) (t : Nat)
    (ts : List Nat) (t2 t3 : Nat)
    (hmax : 1 ≤ cfg.max) (hlen : ts.length = cfg.max - 1)
    (hts : ∀ u ∈ ts, u ≤ t + cfg.window)
    (ht2 : t2 ≤ t + cfg.window) (ht3 : t + cfg.window < t3) :
    check [] cfg key t =
      ((true, (cfg.max : Int) - 1, t + cfg.window), [(key, ⟨1, t + cfg.window⟩)]) ∧
    ((runChecks [] cfg key (t :: ts)).1.all (fun r => r.1)) = true ∧
    (runChecks [] cfg key (t :: ts)).2 = [(key, ⟨cfg.max, t + cfg.window⟩)] ∧
    (check (runChecks [] cfg key (t :: ts)).2 cfg key t2).1 = (false, 0, t + cfg.window) ∧
    check (runChecks [] cfg key (t :: ts)).2 cfg key t3 =
      ((true, (cfg.max : Int) - 1, t3 + cfg.window), [(key, ⟨1, t3 + cfg.window⟩)]) ∧
    (∀ ts2 : List Nat, ts2.length = cfg.max - 1 →
      (∀ u ∈ ts2, u ≤ t3 + cfg.window) →
      ((runChecks [(key, ⟨1, t3 + cfg.window⟩)] cfg key ts2).1.all (fun r => r.1)) = true) := by
  have h1 := check_fresh cfg key t
  have hrun := runChecks_within cfg key ts 1 (t + cfg.window) (by omega) (by omega) hts
  have hcount : 1 + ts.length = cfg.max := by omega
  have hruneq : (runChecks [] cfg key (t :: ts)).1 =
      (true, (cfg.max : Int) - 1, t + cfg.window) ::
        (runChecks [(key, ⟨1, t + cfg.window⟩)] cfg key ts).1 ∧
      (runChecks [] cfg key (t :: ts)).2 =
        (runChecks [(key, ⟨1, t + cfg.window⟩)] cfg key ts).2 := by
    constructor <;> simp only [runChecks, h1]
  have hstate : (runChecks [] cfg key (t :: ts)).2 = [(key, ⟨cfg.max, t + cfg.window⟩)] := by
    rw [hruneq.2, hrun.2, hcount]
  refine ⟨h1, ?_, hstate, ?_, ?_, ?_⟩
  · rw [hruneq.1]
    simp only [List.all_cons]
    simpa using hrun.1
  · rw [hstate]
    rw [check_rejects cfg key cfg.max (t + cfg.window) t2 (by omega) (le_refl _)]
  · rw [hstate]
    exact check_resets cfg key cfg.max (t + cfg.window) t3 ht3
  · intro ts2 hlen2 hts2
    exact (runChecks_within cfg key ts2 1 (t3 + cfg.window) (by omega) (by omega) hts2).1

/-- Witness for C6 at a concrete input: limit 2, window 10, calls at times
0 and 3 allowed, call at 5 rejected, call at 11 resets. -/
theorem rateLimiter_fixed_window_witness :
    (1 ≤ 2 ∧ (5 : Nat) ≤ 0 + 10 ∧ 0 + 10 < 11) ∧
    check (runChecks [] ⟨2, 10⟩ "ip" (0 :: [3])).2 ⟨2, 10⟩ "ip" 11 =
      ((true, ((2 : Nat) : Int) - 1, 11 + 10), [("ip", ⟨1, 11 + 10⟩)]) :=
  ⟨⟨by decide, by decide, by decide⟩,
    (rateLimiter_fixed_window ⟨2, 10⟩ "ip" 0 [3] 5 11 (by decide) (by decide)
      (by decide) (by decide) (by decide)).2.2.2.2.1⟩

set_option maxRecDepth 100000 in
/-- C10: for a request not skipped, the limit and remaining headers are set to
the Go conversion string(rune(n)) of the respective number, which differs from
the decimal representation for every value up to the configured limit of 1000;
the reset header is the RFC3339 rendering of the reset time; a rejected
request additionally gets a Retry-After header and status 429. -/
theorem rateLimit_rune_headers (cfg : RLConfig) (st : RLState) (key : String)
    (now : Nat) :
    ("X-RateLimit-Limit", goRuneString cfg.max) ∈
      (rateLimitHandler cfg st false key now).1.headers ∧
    ("X-RateLimit-Remaining", goRuneString (check st cfg key now).1.2.1.toNat) ∈
      (rateLimitHandler cfg st false key now).1.headers ∧
    ("X-RateLimit-Reset", rfc3339Render (check st cfg key now).1.2.2) ∈
      (rateLimitHandler cfg st false key now).1.headers ∧
    ((check st cfg key now).1.1 = false →
      (rateLimitHandler cfg st false key now).1.status = 429 ∧
      ("Retry-After", goDurationRender ((check st cfg key now).1.2.2 - now)) ∈
        (rateLimitHandler cfg st false key now).1.headers) ∧
    ((List.range 1001).all (fun n => goRuneString n != Nat.repr n)) = true := by
  refine ⟨?_, ?_, ?_, ?_, by decide⟩ <;>
    cases hA : (check st cfg key now).1.1 <;>
      simp [rateLimitHandler, hA]

/-- Witness for C10 at a concrete input: limit 5 already used up, request at
time 50 within the window is rejected with status 429. -/
theorem rateLimit_rune_headers_witness :
    (check [("ip", ⟨5, 100⟩)] ⟨5, 10⟩ "ip" 50).1.1 = false ∧
    (rateLimitHandler ⟨5, 10⟩ [("ip", ⟨5, 100⟩)] false "ip" 50).1.status = 429 :=
  ⟨by decide,
    ((rateLimit_rune_headers ⟨5, 10⟩ [("ip", ⟨5, 100⟩)] "ip" 50).2.2.2.1
      (by decide)).1⟩

/-- Helper: the retry loop makes at most as many attempts as it has loop
iterations left. -/
theorem doRequestGo_attempts_le (bw : Nat) (env : Nat → AttemptResult) :
    ∀ (fuel i : Nat), (doRequestGo bw env i fuel).attemptsMade ≤ fuel := by
  intro fuel
  induction fuel with
  | zero => intro i; simp [doRequestGo]
  | succ n ih =>
    intro i
    simp only [doRequestGo]
    cases h : env i with
    | transportErr =>
      simpa using Nat.succ_le_succ (ih (i + 1))
    | http s b =>
      by_cases h2 : 200 ≤ s ∧ s < 300
      · simp [h2]
      · by_cases h5 : 500 ≤ s
        · simp only [h2, h5, if_true, if_false]
          simpa using Nat.succ_le_succ (ih (i + 1))
        · simp [h2, h5]

/-- Helper: the sleeps of the retry loop starting at attempt index i are
exactly baseWait times the index of each attempt after the first overall
attempt (index 0 sleeps nothing). -/
theorem doRequestGo_waits (bw : Nat) (env : Nat → AttemptResult) :
    ∀ (fuel i : Nat),
      (doRequestGo bw env i fuel).waits =
        ((List.range' i (doRequestGo bw env i fuel).attemptsMade).filter
          (fun j => j != 0)).map (fun j => bw * j) := by
  intro fuel
  induction fuel with
  | zero => intro i; simp [doRequestGo]
  | succ n ih =>
    intro i
    simp only [doRequestGo]
    cases h : env i with
    | transportErr =>
      rw [List.range'_succ, List.filter_cons]
      by_cases hi : i = 0
      · subst hi; simp [ih 1]
      · simp [hi, ih (i + 1)]
    | http s b =>
      dsimp only
      by_cases h2 : 200 ≤ s ∧ s < 300
      · rw [if_pos h2]
        dsimp only
        rw [List.range'_one, List.filter_cons]
        by_cases hi : i = 0 <;> simp [hi]
      · by_cases h5 : 500 ≤ s
        · rw [if_neg h2, if_pos h5]
          dsimp only
          rw [List.range'_succ, List.filter_cons]
          by_cases hi : i = 0
          · subst hi; simp [ih 1]
          · simp [hi, ih (i + 1)]
        · rw [if_neg h2, if_neg h5]
          dsimp only
          rw [List.range'_one, List.filter_cons]
          by_cases hi : i = 0 <;> simp [hi]

/-- Helper: every attempt of the loop except the last one failed retryably
(transport error or a 5xx status); a 2xx or a 4xx outcome ends the loop. -/
theorem doRequestGo_retryable (bw : Nat) (env : Nat → AttemptResult) :
    ∀ (fuel i k : Nat), i ≤ k →
      k + 1 < i + (doRequestGo bw env i fuel).attemptsMade →
      isRetryable (env k) = true := by
  intro fuel
  induction fuel with
  | zero =>
    intro i k hik hlt
    simp [doRequestGo] at hlt
    omega
  | succ n ih =>
    intro i k hik hlt
    simp only [doRequestGo] at hlt
    cases h : env i with
    | transportErr =>
      rw [h] at hlt
      dsimp only at hlt
      by_cases hk : k = i
      · subst hk; rw [h]; rfl
      · exact ih (i + 1) k (by omega) (by omega)
    | http s b =>
      rw [h] at hlt
      dsimp only at hlt
      by_cases h2 : 200 ≤ s ∧ s < 300
      · rw [if_pos h2] at hlt
        dsimp only at hlt
        omega
      · by_cases h5 : 500 ≤ s
        · rw [if_neg h2, if_pos h5] at hlt
          dsimp only at hlt
          by_cases hk : k = i
          · subst hk; rw [h]; simp [isRetryable, h5]
          · exact ih (i + 1) k (by omega) (by omega)
        · rw [if_neg h2, if_neg h5] at hlt
          dsimp only at hlt
          omega

/-- Helper: when every attempt before index k fails retryably and attempt k
returns a non-2xx, non-5xx status, the loop stops at attempt k with a client
error carrying that status and body. -/
theorem doRequestGo_clientError (bw : Nat) (env : Nat → AttemptResult) :
    ∀ (fuel i k : Nat) (s : Nat) (b : List Nat), i ≤ k → k < i + fuel →
      (∀ j, i ≤ j → j < k → isRetryable (env j) = true) →
      env k = .http s b → ¬ (200 ≤ s ∧ s < 300) → ¬ 500 ≤ s →
      (doRequestGo bw env i fuel).outcome = .clientError s b ∧
      (doRequestGo bw env i fuel).attemptsMade + i = k + 1 := by
  intro fuel
  induction fuel with
  | zero => intro i k s b hik hlt; omega
  | succ n ih =>
    intro i k s b hik hlt hretry hk h2 h5
    simp only [doRequestGo]
    by_cases hki : k = i
    · subst hki
      rw [hk]
      dsimp only
      rw [if_neg h2, if_neg h5]
      refine ⟨rfl, ?_⟩
      show 1 + k = k + 1
      omega
    · have hilt : i < k := by omega
      have hri : isRetryable (env i) = true := hretry i (le_refl i) hilt
      obtain ⟨ho, ha⟩ := ih (i + 1) k s b (by omega) (by omega)
        (fun j hj1 hj2 => hretry j (by omega) hj2) hk h2 h5
      cases h : env i with
      | transportErr =>
        refine ⟨ho, ?_⟩
        show (doRequestGo bw env (i + 1) n).attemptsMade + 1 + i = k + 1
        omega
      | http s2 b2 =>
        rw [h] at hri
        have h52 : 500 ≤ s2 := by simpa [isRetryable] using hri
        dsimp only
        rw [if_neg (by omega : ¬ (200 ≤ s2 ∧ s2 < 300)), if_pos h52]
        refine ⟨ho, ?_⟩
        show (doRequestGo bw env (i + 1) n).attemptsMade + 1 + i = k + 1
        omega

/-- C8: doRequest makes at most RetryCount retries after the initial attempt;
the sleep before attempt j (0-based, none before attempt 0) is baseWait times
j, so the wait between attempt i and attempt i+1 (1-based) is baseWait times i,
linear and not exponential; a non-final attempt is always a transport error or
a 5xx; and a 4xx response reached after retryable failures returns at once as
a client error carrying the body, with no further attempts. -/
theorem doRequest_retry_policy (rc bw : Nat) (env : Nat → AttemptResult) :
    (doRequest rc bw env).attemptsMade ≤ rc + 1 ∧
    (doRequest rc bw env).waits =
      ((List.range (doRequest rc bw env).attemptsMade).filter
        (fun j => j != 0)).map (fun j => bw * j) ∧
    (∀ k, k + 1 < (doRequest rc bw env).attemptsMade →
      isRetryable (env k) = true) ∧
    (∀ k s b, k ≤ rc → (∀ j, j < k → isRetryable (env j) = true) →
      env k = .http s b → 400 ≤ s → s < 500 →
      (doRequest rc bw env).outcome = .clientError s b ∧
      (doRequest rc bw env).attemptsMade = k + 1) := by
  simp only [doRequest]
  refine ⟨doRequestGo_attempts_le bw env (rc + 1) 0, ?_, ?_, ?_⟩
  · rw [List.range_eq_range']
    exact doRequestGo_waits bw env (rc + 1) 0
  · intro k hk
    exact doRequestGo_retryable bw env (rc + 1) 0 k (Nat.zero_le k) (by omega)
  · intro k s b hkrc hretry hk h4 h5
    have h := doRequestGo_clientError bw env (rc + 1) 0 k s b (Nat.zero_le k)
      (by omega) (fun j _ hj2 => hretry j hj2) hk (by omega) (by omega)
    exact ⟨h.1, by omega⟩

/-- Witness for C8 at a concrete input: a transport error followed by a 404
stops after the second attempt with a client error carrying the body. -/
theorem doRequest_retry_policy_witness :
    (doRequest 3 7 (fun k => if k = 0 then .transportErr
      else .http 404 [3])).outcome = .clientError 404 [3] ∧
    (doRequest 3 7 (fun k => if k = 0 then .transportErr
      else .http 404 [3])).attemptsMade = 2 :=
  (doRequest_retry_policy 3 7 (fun k => if k = 0 then .transportErr
      else .http 404 [3])).2.2.2 1 404 [3] (by decide) (by decide) rfl
    (by decide) (by decide)

/-- C9: when dialing either feed fails, Connect returns an error, any feed
opened during the attempt is closed, the manager is not marked connected, and
neither the read loops nor the ping loop are started. -/
theorem connect_no_partial_state (s : ConnState) (clobOk liveOk : Bool)
    (h : clobOk = false ∨ liveOk = false) :
    (connectGo s clobOk liveOk).2.2 = true ∧
    (connectGo s clobOk liveOk).1.connected = s.connected ∧
    ConnEvent.readLoopsStarted ∉ (connectGo s clobOk liveOk).2.1 ∧
    ConnEvent.pingStarted ∉ (connectGo s clobOk liveOk).2.1 ∧
    ConnEvent.connectCb ∉ (connectGo s clobOk liveOk).2.1 ∧
    (ConnEvent.dialClob true ∈ (connectGo s clobOk liveOk).2.1 →
      ConnEvent.closeClob ∈ (connectGo s clobOk liveOk).2.1) := by
  cases clobOk <;> cases liveOk <;> simp_all [connectGo]

/-- Witness for C9 at a concrete input: the order-book dial succeeds and the
live-data dial fails. -/
theorem connect_no_partial_state_witness :
    ((true : Bool) = false ∨ (false : Bool) = false) ∧
    (connectGo ⟨none, none, false⟩ true false).2.2 = true :=
  ⟨Or.inr rfl, (connect_no_partial_state ⟨none, none, false⟩ true false
    (Or.inr rfl)).1⟩

/-- C1 (divergence of the code from the claim): a read error on the live-data
feed only invokes the error callback and ends that read loop, with no
disconnect marking, no disconnect callback and no reconnect attempt, while a
read error on the order-book feed runs the full claimed sequence: disconnect
callback, waits 1, 2, 4, 8, 16, 30, 30 seconds across seven attempts, and
stops at the first successful connect. -/
theorem liveFeed_read_error_no_reconnect :
    handleLiveReadError ⟨true⟩ = (⟨true⟩, [MgrEvent.errorCb]) ∧
    (handleClobReadError ⟨true⟩
        [false, false, false, false, false, false, true]).2 =
      [MgrEvent.errorCb, MgrEvent.disconnectCb,
       MgrEvent.wait 1, MgrEvent.attempt false,
       MgrEvent.wait 2, MgrEvent.attempt false,
       MgrEvent.wait 4, MgrEvent.attempt false,
       MgrEvent.wait 8, MgrEvent.attempt false,
       MgrEvent.wait 16, MgrEvent.attempt false,
       MgrEvent.wait 30, MgrEvent.attempt false,
       MgrEvent.wait 30, MgrEvent.attempt true, MgrEvent.connectCb] ∧
    (handleClobReadError ⟨true⟩
        [false, false, false, false, false, false, true]).1.connected = true ∧
    (handleClobReadError ⟨true⟩ []).1.connected = false := by
  decide

/-- Helper: when the broadcast queue has room for every record, the enqueue
loop of handleUpstreamMessage appends one record per market, in order. -/
theorem enqueueAll_completes (f : Frame) :
    ∀ (ms : List String) (q : List WSBroadcast), q.length + ms.length ≤ 1000 →
      enqueueAll q f ms = .completed (q ++ ms.map (fun m => ⟨m, f⟩)) := by
  intro ms
  induction ms with
  | nil => intro q h; simp [enqueueAll]
  | cons m ms ih =>
    intro q h
    have hq : q.length < 1000 := by
      simp only [List.length_cons] at h; omega
    simp only [enqueueAll, chanSend, if_pos hq]
    have hlen : (q ++ [(⟨m, f⟩ : WSBroadcast)]).length + ms.length ≤ 1000 := by
      simp only [List.length_append, List.length_cons, List.length_nil] at h ⊢
      omega
    rw [ih _ hlen]
    simp

/-- C2 (amended): the enqueue onto the broadcast channel is a plain blocking
send; with spare capacity every record of the message is appended and the
producer completes, but on a full queue the producer blocks on the first
record rather than dropping it. -/
theorem broadcast_enqueue_blocking (q : List WSBroadcast) (f : Frame) :
    (∀ r, q.length < 1000 → chanSend q r = .sent (q ++ [r])) ∧
    (∀ r, 1000 ≤ q.length → chanSend q r = .blocked) ∧
    (q.length + (handlerMarkets f).length ≤ 1000 →
      handleUpstreamMessage q f =
        .completed (q ++ (handlerMarkets f).map (fun m => ⟨m, f⟩))) ∧
    (1000 ≤ q.length → ∀ m ms, handlerMarkets f = m :: ms →
      handleUpstreamMessage q f = .blockedAt q m) := by
  refine ⟨?_, ?_, ?_, ?_⟩
  · intro r h; simp [chanSend, h]
  · intro r h; simp [chanSend, Nat.not_lt.mpr h]
  · intro h
    simpa [handleUpstreamMessage] using
      enqueueAll_completes f (handlerMarkets f) q h
  · intro h m ms hm
    simp [handleUpstreamMessage, hm, enqueueAll, chanSend, Nat.not_lt.mpr h]

/-- Witness for the amended C2 at a concrete input: an empty queue accepts
both records of a two-market frame. -/
theorem broadcast_enqueue_blocking_witness :
    handleUpstreamMessage [] ⟨[JField.marketsF ["a", "b"]]⟩ =
      .completed [⟨"a", ⟨[JField.marketsF ["a", "b"]]⟩⟩,
                  ⟨"b", ⟨[JField.marketsF ["a", "b"]]⟩⟩] := by
  have h := (broadcast_enqueue_blocking [] ⟨[JField.marketsF ["a", "b"]]⟩).2.2.1
    (by decide)
  simpa [handlerMarkets, frameMarkets, frameMarket, List.findSome?] using h

set_option maxRecDepth 100000 in
/-- Counterexample for C2 as stated: with the queue full (1000 records), a
frame for one market leaves the producer blocked on the send; the record is
not dropped and the enqueue does not return. -/
theorem broadcast_enqueue_full_cex :
    handleUpstreamMessage (List.replicate 1000 ⟨"x", ⟨[]⟩⟩)
        ⟨[JField.marketsF ["m"]]⟩ =
      .blockedAt (List.replicate 1000 ⟨"x", ⟨[]⟩⟩) "m" := by
  rfl

/-- Helper: updating a key of an association list leaves lookups of that key
pointing at the updated value. -/
theorem find?_mapUpdate_self {A B : Type} [BEq A] [LawfulBEq A]
    (l : List (A × B)) (k : A) (u : B → B) :
    (mapUpdate l k u).find? (fun p => p.1 == k) =
      (l.find? (fun p => p.1 == k)).map (fun p => (k, u p.2)) := by
  induction l with
  | nil => rfl
  | cons p l ih =>
    unfold mapUpdate
    rw [List.map_cons]
    by_cases hp : p.1 == k
    · rw [if_pos hp,
        @List.find?_cons_of_pos (A × B) (fun q => q.1 == k) _ _ (by simp),
        @List.find?_cons_of_pos (A × B) (fun q => q.1 == k) _ _ hp]
      rfl
    · rw [if_neg hp,
        @List.find?_cons_of_neg (A × B) (fun q => q.1 == k) _ _ (by simpa using hp),
        @List.find?_cons_of_neg (A × B) (fun q => q.1 == k) _ _ (by simpa using hp)]
      exact ih

/-- Helper: updating one key of an association list leaves lookups of every
other key unchanged. -/
theorem find?_mapUpdate_ne {A B : Type} [BEq A] [LawfulBEq A]
    (l : List (A × B)) (k k2 : A) (u : B → B) (h : k2 ≠ k) :
    (mapUpdate l k u).find? (fun p => p.1 == k2) =
      l.find? (fun p => p.1 == k2) := by
  induction l with
  | nil => rfl
  | cons p l ih =>
    unfold mapUpdate
    rw [List.map_cons]
    by_cases hp : p.1 == k
    · have hk : p.1 = k := eq_of_beq hp
      have h1 : ¬ ((k, u p.2).1 == k2) := by
        simpa [beq_eq_false_iff_ne] using fun hh => h hh.symm
      have h2 : ¬ (p.1 == k2) := by
        rw [hk]
        simpa [beq_eq_false_iff_ne] using fun hh => h hh.symm
      rw [if_pos hp,
        @List.find?_cons_of_neg (A × B) (fun q => q.1 == k2) _ _ (by simpa using h1),
        @List.find?_cons_of_neg (A × B) (fun q => q.1 == k2) _ _ (by simpa using h2)]
      exact ih
    · rw [if_neg hp]
      by_cases hq : p.1 == k2
      · rw [@List.find?_cons_of_pos (A × B) (fun q => q.1 == k2) _ _ hq,
          @List.find?_cons_of_pos (A × B) (fun q => q.1 == k2) _ _ hq]
      · rw [@List.find?_cons_of_neg (A × B) (fun q => q.1 == k2) _ _ (by simpa using hq),
          @List.find?_cons_of_neg (A × B) (fun q => q.1 == k2) _ _ (by simpa using hq)]
        exact ih

/-- Helper: value-level form of the self lookup through an update. -/
theorem lookup_mapUpdate_self {A B : Type} [BEq A] [LawfulBEq A]
    (l : List (A × B)) (k : A) (u : B → B) :
    ((mapUpdate l k u).find? (fun p => p.1 == k)).map (fun p => p.2) =
      (((l.find? (fun p => p.1 == k)).map (fun p => p.2)).map u) := by
  rw [find?_mapUpdate_self]
  cases l.find? (fun p => p.1 == k) <;> rfl

/-- Helper: dropping every entry of a key from an association list makes
lookups of that key fail. -/
theorem find?_filter_key_self {A B : Type} [BEq A] [LawfulBEq A]
    (l : List (A × B)) (k : A) :
    (l.filter (fun p => !(p.1 == k))).find? (fun p => p.1 == k) = none := by
  rw [List.find?_eq_none]
  intro x hx
  have h2 := (List.mem_filter.mp hx).2
  simp at h2
  simp [h2]

/-- Helper: dropping every entry of one key leaves lookups of every other key
unchanged. -/
theorem find?_filter_key_ne {A B : Type} [BEq A] [LawfulBEq A]
    (l : List (A × B)) (k k2 : A) (h : k2 ≠ k) :
    (l.filter (fun p => !(p.1 == k))).find? (fun p => p.1 == k2) =
      l.find? (fun p => p.1 == k2) := by
  induction l with
  | nil => rfl
  | cons p l ih =>
    rw [List.filter_cons]
    by_cases hp : p.1 == k
    · have hk : p.1 = k := eq_of_beq hp
      have h2 : ¬ (p.1 == k2) := by
        rw [hk]
        simpa [beq_eq_false_iff_ne] using fun hh => h hh.symm
      simp only [hp, Bool.not_true, Bool.false_eq_true, if_false]
      rw [@List.find?_cons_of_neg (A × B) (fun q => q.1 == k2) _ _ (by simpa using h2)]
      exact ih
    · simp only [hp, Bool.not_false, if_true]
      by_cases hq : p.1 == k2
      · rw [@List.find?_cons_of_pos (A × B) (fun q => q.1 == k2) _ _ hq,
          @List.find?_cons_of_pos (A × B) (fun q => q.1 == k2) _ _ hq]
      · rw [@List.find?_cons_of_neg (A × B) (fun q => q.1 == k2) _ _ (by simpa using hq),
          @List.find?_cons_of_neg (A × B) (fun q => q.1 == k2) _ _ (by simpa using hq)]
        exact ih

/-- Helper: a non-blocking send to one channel, seen through the buffer
lookup of that channel. -/
theorem lookupBuf_sendNB_self (bufs : ChanBufs) (ch : Nat) (f : Frame) :
    lookupBuf (sendNB bufs ch f) ch =
      (lookupBuf bufs ch).map (fun l => if l.length < 100 then l ++ [f] else l) := by
  unfold lookupBuf sendNB
  exact lookup_mapUpdate_self bufs ch _

/-- Helper: a non-blocking send to one channel leaves every other buffer
unchanged. -/
theorem lookupBuf_sendNB_ne (bufs : ChanBufs) (ch ch2 : Nat) (f : Frame)
    (h : ch2 ≠ ch) :
    lookupBuf (sendNB bufs ch f) ch2 = lookupBuf bufs ch2 := by
  unfold lookupBuf sendNB
  rw [find?_mapUpdate_ne _ _ _ _ h]

/-- Helper: a sequence of sends that never targets a channel leaves its
buffer unchanged. -/
theorem lookupBuf_foldl_not_mem (f : Frame) :
    ∀ (ts : List Nat) (bufs : ChanBufs) (ch : Nat), ch ∉ ts →
      lookupBuf (ts.foldl (fun b c => sendNB b c f) bufs) ch = lookupBuf bufs ch := by
  intro ts
  induction ts with
  | nil => intro bufs ch _; rfl
  | cons c ts ih =>
    intro bufs ch h
    simp only [List.mem_cons, not_or] at h
    simp only [List.foldl_cons]
    rw [ih _ ch h.2, lookupBuf_sendNB_ne _ _ _ _ h.1]

/-- Helper: a sequence of sends targeting a channel exactly once appends the
frame when the buffer has room and drops it otherwise. -/
theorem lookupBuf_foldl_count_one (f : Frame) :
    ∀ (ts : List Nat) (bufs : ChanBufs) (ch : Nat), ts.count ch = 1 →
      lookupBuf (ts.foldl (fun b c => sendNB b c f) bufs) ch =
        (lookupBuf bufs ch).map (fun l => if l.length < 100 then l ++ [f] else l) := by
  intro ts
  induction ts with
  | nil => intro bufs ch h; simp [List.count_nil] at h
  | cons c ts ih =>
    intro bufs ch h
    rw [List.count_cons] at h
    by_cases hc : c = ch
    · subst hc
      have hz : ts.count c = 0 := by simpa using h
      have hnot : c ∉ ts := List.count_eq_zero.mp hz
      simp only [List.foldl_cons]
      rw [lookupBuf_foldl_not_mem f ts _ _ hnot, lookupBuf_sendNB_self]
    · have h1 : ts.count ch = 1 := by
        have : (c == ch) = false := by simpa [beq_eq_false_iff_ne] using hc
        simpa [this] using h
      simp only [List.foldl_cons]
      rw [ih _ ch h1, lookupBuf_sendNB_ne _ _ _ _ (Ne.symm hc)]

/-- Helper: processMessage is the fold of non-blocking sends over its full
send-target sequence. -/
theorem processMessage_eq_foldl (w : MgrSubs) (bufs : ChanBufs) (f : Frame) :
    processMessage w bufs f =
      (sendTargets w f).foldl (fun b ch => sendNB b ch f) bufs := by
  unfold processMessage sendTargets
  by_cases h : (parseWSMessage f).length > 0
  · rw [if_pos h, List.foldl_flatten, List.foldl_map]
  · rw [if_neg h]
    have hnil : parseWSMessage f = [] := by
      cases hp : parseWSMessage f with
      | nil => rfl
      | cons a l => rw [hp] at h; simp at h
    rw [hnil]
    rfl

/-- C5 (amended): only the parsed markets array routes frames to direct
per-market channels (the scalar market field is not part of the manager
WSMessage struct and is used only on the broadcast path); every channel
registered for a listed market is a send target, a channel targeted exactly
once receives the raw frame when it has spare capacity and drops it when
full, and untargeted channels are untouched. -/
theorem processMessage_array_routing (w : MgrSubs) (bufs : ChanBufs) (f : Frame) :
    (parseWSMessage f = [] → processMessage w bufs f = bufs) ∧
    (∀ m ch, m ∈ parseWSMessage f → ch ∈ subsOf w m → ch ∈ sendTargets w f) ∧
    (∀ ch, ch ∉ sendTargets w f →
      lookupBuf (processMessage w bufs f) ch = lookupBuf bufs ch) ∧
    (∀ ch, (sendTargets w f).count ch = 1 →
      lookupBuf (processMessage w bufs f) ch =
        (lookupBuf bufs ch).map (fun l => if l.length < 100 then l ++ [f] else l)) := by
  refine ⟨?_, ?_, ?_, ?_⟩
  · intro h; simp [processMessage, h]
  · intro m ch hm hch
    unfold sendTargets
    rw [List.mem_flatten]
    exact ⟨subsOf w m, List.mem_map_of_mem _ hm, hch⟩
  · intro ch h
    rw [processMessage_eq_foldl]
    exact lookupBuf_foldl_not_mem f _ bufs ch h
  · intro ch h
    rw [processMessage_eq_foldl]
    exact lookupBuf_foldl_count_one f _ bufs ch h

/-- Witness for the amended C5 at a concrete input: one channel registered
for one market receives the frame listing that market. -/
theorem processMessage_array_routing_witness :
    lookupBuf (processMessage ⟨[("a", [0])]⟩ [(0, [])]
        ⟨[JField.marketsF ["a"]]⟩) 0 =
      some [⟨[JField.marketsF ["a"]]⟩] := by
  have h := (processMessage_array_routing ⟨[("a", [0])]⟩ [(0, [])]
    ⟨[JField.marketsF ["a"]]⟩).2.2.2 0 (by decide)
  exact h.trans (by decide)

/-- Counterexample for C5 as stated: a frame whose scalar market field equals
a subscribed market with a spare-capacity channel is not delivered to that
channel, because processMessage parses only the markets array. -/
theorem processMessage_scalar_market_cex :
    frameMarket ⟨[JField.marketF "m"]⟩ = "m" ∧
    subsOf ⟨[("m", [0])]⟩ "m" = [0] ∧
    lookupBuf [(0, [])] 0 = some [] ∧
    processMessage ⟨[("m", [0])]⟩ [(0, [])] ⟨[JField.marketF "m"]⟩ = [(0, [])] := by
  decide

/-- Helper: SubscribeMarket does not touch the registered-clients table. -/
theorem subscribeMarket_clients (g : GwState) (m : String) :
    (subscribeMarket g m).1.clients = g.clients := by
  unfold subscribeMarket
  cases subsLookup g m <;> rfl

/-- Helper: a market is a member of its own set insertion. -/
theorem mem_setInsert_self (s : List String) (m : String) : m ∈ setInsert s m := by
  unfold setInsert
  by_cases h : s.contains m
  · rw [if_pos h]; simpa using h
  · rw [if_neg h]; simp

/-- Helper: set insertion preserves membership. -/
theorem mem_setInsert_of_mem (s : List String) (m m2 : String) (h : m ∈ s) :
    m ∈ setInsert s m2 := by
  unfold setInsert
  by_cases h2 : s.contains m2
  · rw [if_pos h2]; exact h
  · rw [if_neg h2]; exact List.mem_append_left _ h

/-- Helper: folding set insertions over a list contains every listed market
and every previous member. -/
theorem mem_foldl_setInsert (m : String) :
    ∀ (ms : List String) (s : List String), m ∈ ms ∨ m ∈ s →
      m ∈ ms.foldl setInsert s := by
  intro ms
  induction ms with
  | nil =>
    intro s h
    rcases h with h | h
    · simp at h
    · simpa using h
  | cons m2 ms ih =>
    intro s h
    simp only [List.foldl_cons]
    apply ih
    rcases h with h | h
    · rcases List.mem_cons.mp h with h1 | h1
      · subst h1; exact Or.inr (mem_setInsert_self s m)
      · exact Or.inl h1
    · exact Or.inr (mem_setInsert_of_mem s m m2 h)

/-- Helper: one subscribe fold step of HandleMarketWS inserts the market into
the set of the session. -/
theorem clientMarkets_subStep (conn : Nat) (g : GwState) (m : String)
    (s : List String) (h : clientMarkets g conn = some s) :
    clientMarkets (marketWSSubStep conn g m) conn = some (setInsert s m) := by
  unfold marketWSSubStep
  have hcl := subscribeMarket_clients
    { g with clients := clientAddMarket g.clients conn m } m
  unfold clientMarkets at h ⊢
  rw [hcl]
  show ((clientAddMarket g.clients conn m).find?
    (fun p => p.1 == conn)).map (fun p => p.2) = _
  unfold clientAddMarket
  rw [lookup_mapUpdate_self, h]
  rfl

/-- Helper: the subscribe branch folds set insertions over the listed
markets. -/
theorem clientMarkets_subFold (conn : Nat) :
    ∀ (ms : List String) (g : GwState) (s : List String),
      clientMarkets g conn = some s →
      clientMarkets (ms.foldl (marketWSSubStep conn) g) conn =
        some (ms.foldl setInsert s) := by
  intro ms
  induction ms with
  | nil => intro g s h; simpa using h
  | cons m ms ih =>
    intro g s h
    simp only [List.foldl_cons]
    exact ih _ _ (clientMarkets_subStep conn g m s h)

/-- Helper: the unsubscribe branch folds removals over the listed markets. -/
theorem clientMarkets_delFold (conn : Nat) :
    ∀ (ms : List String) (cl : List (Nat × List String)) (s : List String),
      (cl.find? (fun p => p.1 == conn)).map (fun p => p.2) = some s →
      ((ms.foldl (fun cl2 m => clientDelMarket cl2 conn m) cl).find?
          (fun p => p.1 == conn)).map (fun p => p.2) =
        some (ms.foldl (fun s2 m => s2.filter (fun x => !(x == m))) s) := by
  intro ms
  induction ms with
  | nil => intro cl s h; simpa using h
  | cons m ms ih =>
    intro cl s h
    simp only [List.foldl_cons]
    apply ih
    unfold clientDelMarket
    rw [lookup_mapUpdate_self, h]
    rfl

/-- Helper: a market is not a member of its own removal. -/
theorem not_mem_filter_self (s : List String) (m : String) :
    m ∉ s.filter (fun x => !(x == m)) := by
  intro h
  have h2 := (List.mem_filter.mp h).2
  simp at h2

/-- Helper: folding removals never adds members. -/
theorem not_mem_foldl_filter_preserve (m : String) :
    ∀ (ms : List String) (s : List String), m ∉ s →
      m ∉ ms.foldl (fun s2 m2 => s2.filter (fun x => !(x == m2))) s := by
  intro ms
  induction ms with
  | nil => intro s h; simpa using h
  | cons m2 ms ih =>
    intro s h
    simp only [List.foldl_cons]
    apply ih
    intro hmem
    exact h (List.mem_filter.mp hmem).1

/-- Helper: folding removals over a list removes every listed market. -/
theorem not_mem_foldl_filter_of_mem (m : String) :
    ∀ (ms : List String) (s : List String), m ∈ ms →
      m ∉ ms.foldl (fun s2 m2 => s2.filter (fun x => !(x == m2))) s := by
  intro ms
  induction ms with
  | nil => intro s h; simp at h
  | cons m2 ms ih =>
    intro s h
    simp only [List.foldl_cons]
    by_cases hm : m = m2
    · subst hm
      exact not_mem_foldl_filter_preserve m ms _ (not_mem_filter_self s m)
    · refine ih _ ?_
      rcases List.mem_cons.mp h with h1 | h1
      · exact absurd h1 hm
      · exact h1

/-- C4 (amended): after the upgrade, both endpoints reply pong to ping, but
only the single-market endpoint acts on subscribe and unsubscribe (adding the
listed markets to the session set, respectively removing them); the
all-markets handler parses only the type field and leaves both the state and
the reply stream untouched for subscribe and unsubscribe. -/
theorem control_message_vocabulary (g : GwState) (conn now : Nat)
    (ms : List String) :
    marketWSHandleMsg g conn now ClientMsg.pingC = (g, [Reply.pong now]) ∧
    allMarketsWSHandleMsg g conn now ClientMsg.pingC = (g, [Reply.pong now]) ∧
    allMarketsWSHandleMsg g conn now (ClientMsg.subscribeC ms) = (g, []) ∧
    allMarketsWSHandleMsg g conn now (ClientMsg.unsubscribeC ms) = (g, []) ∧
    (∀ s, clientMarkets g conn = some s →
      clientMarkets (marketWSHandleMsg g conn now
          (ClientMsg.subscribeC ms)).1 conn = some (ms.foldl setInsert s) ∧
      ∀ m ∈ ms, m ∈ ms.foldl setInsert s) ∧
    (∀ s, clientMarkets g conn = some s →
      clientMarkets (marketWSHandleMsg g conn now
          (ClientMsg.unsubscribeC ms)).1 conn =
        some (ms.foldl (fun s2 m => s2.filter (fun x => !(x == m))) s) ∧
      ∀ m ∈ ms, m ∉ ms.foldl (fun s2 m => s2.filter (fun x => !(x == m))) s) := by
  refine ⟨rfl, rfl, rfl, rfl, ?_, ?_⟩
  · intro s h
    refine ⟨clientMarkets_subFold conn ms g s h, ?_⟩
    intro m hm
    exact mem_foldl_setInsert m ms s (Or.inl hm)
  · intro s h
    refine ⟨clientMarkets_delFold conn ms g.clients s h, ?_⟩
    intro m hm
    exact not_mem_foldl_filter_of_mem m ms s hm

/-- Witness for the amended C4 at a concrete input: a session subscribed to
one market gains the market of a subscribe control message. -/
theorem control_message_vocabulary_witness :
    clientMarkets (marketWSHandleMsg ⟨[], [], 0, [(7, ["A"])]⟩ 7 0
        (ClientMsg.subscribeC ["B"])).1 7 = some ["A", "B"] := by
  have h := ((control_message_vocabulary ⟨[], [], 0, [(7, ["A"])]⟩ 7 0
    ["B"]).2.2.2.2.1 ["A"] (by decide)).1
  exact h.trans (by decide)

/-- Counterexample for C4 as stated: on the all-markets endpoint a subscribe
control message performs no state change at all; the listed market is not
added to the session set. -/
theorem allMarkets_subscribe_ignored_cex :
    allMarketsWSHandleMsg (allMarketsWSConnect ⟨[], [], 0, []⟩ 5) 5 0
        (ClientMsg.subscribeC ["A"]) =
      (allMarketsWSConnect ⟨[], [], 0, []⟩ 5, []) ∧
    clientMarkets (allMarketsWSConnect ⟨[], [], 0, []⟩ 5) 5 = some ["*"] ∧
    "A" ∉ (["*"] : List String) := by
  decide

/-- C3 (amended): destroying a single-market session removes it from the
registered-clients table; the channel created at session start is released,
and when it was the last channel of the path market the subscription entry is
deleted and exactly one upstream unsubscribe frame is emitted; but entries of
every other market, including channels the session registered through later
subscribe control messages, are left untouched. -/
theorem marketWS_teardown_cleanup (g : GwState) (conn : Nat)
    (marketID : String) (ch : Nat) :
    (∀ p ∈ (marketWSTeardown g conn marketID ch).clients, p.1 ≠ conn) ∧
    (subsLookup g marketID = some [ch] →
      subsLookup (marketWSTeardown g conn marketID ch) marketID = none ∧
      (marketWSTeardown g conn marketID ch).upstream =
        g.upstream ++ [UpFrame.unsubscribeF marketID]) ∧
    (∀ m, m ≠ marketID →
      subsLookup (marketWSTeardown g conn marketID ch) m = subsLookup g m) := by
  refine ⟨?_, ?_, ?_⟩
  · intro p hp
    have h2 := (List.mem_filter.mp hp).2
    simpa using h2
  · intro h
    constructor
    · show subsLookup (unsubscribeMarket g marketID ch) marketID = none
      unfold unsubscribeMarket
      rw [h]
      simp only [List.erase_cons_head, List.length_nil, if_pos rfl]
      show ((delSubs g.marketSubs marketID).find?
        (fun p => p.1 == marketID)).map (fun p => p.2) = none
      unfold delSubs
      rw [find?_filter_key_self]
      rfl
    · show (unsubscribeMarket g marketID ch).upstream =
        g.upstream ++ [UpFrame.unsubscribeF marketID]
      unfold unsubscribeMarket
      rw [h]
      simp [List.erase_cons_head]
  · intro m hm
    show subsLookup (unsubscribeMarket g marketID ch) m = subsLookup g m
    unfold unsubscribeMarket
    cases hs : subsLookup g marketID with
    | none => rfl
    | some subs =>
      dsimp only
      split
      · show ((delSubs g.marketSubs marketID).find?
          (fun p => p.1 == m)).map (fun p => p.2) = _
        unfold delSubs
        rw [find?_filter_key_ne _ _ _ hm]
        rfl
      · show ((setSubs g.marketSubs marketID (subs.erase ch)).find?
          (fun p => p.1 == m)).map (fun p => p.2) = _
        unfold setSubs
        rw [find?_mapUpdate_ne _ _ _ _ hm]
        rfl

/-- Witness for the amended C3 at a concrete input: tearing down the only
subscriber of its path market deletes the entry and emits the upstream
unsubscribe frame. -/
theorem marketWS_teardown_cleanup_witness :
    subsLookup (marketWSTeardown
      (marketWSConnect ⟨[], [], 0, []⟩ 7 "A").1 7 "A" 0) "A" = none := by
  exact ((marketWS_teardown_cleanup
    (marketWSConnect ⟨[], [], 0, []⟩ 7 "A").1 7 "A" 0).2.1 (by decide)).1

/-- Counterexample for C3 as stated: a session that subscribes to a second
market through a control message leaves that market's channel registered
after teardown, because the subscribe branch discards the channel returned by
SubscribeMarket and the deferred cleanup releases only the channel of the
path market. -/
theorem session_teardown_leaks_channel_cex :
    (marketWSTeardown
        (marketWSHandleMsg (marketWSConnect ⟨[], [], 0, []⟩ 7 "A").1 7 0
          (ClientMsg.subscribeC ["B"])).1
        7 "A" 0).marketSubs = [("B", [1])] ∧
    (marketWSTeardown
        (marketWSHandleMsg (marketWSConnect ⟨[], [], 0, []⟩ 7 "A").1 7 0
          (ClientMsg.subscribeC ["B"])).1
        7 "A" 0).clients = [] := by
  decide

end PolyGo
